import Mathlib

/-!
Verification development for the disease-prediction training and evaluation
pipeline (data_loader.py, model_trainer.py, model_evaluator.py).

The Python data structures are embedded shallowly:
* pandas columns become `List String`; a table is a list of row structures;
* `numpy` 0/1 feature vectors become `List ℕ` with entries 0 or 1;
* integer class labels become `ℤ` (the evaluator uses -1 as a sentinel);
* a file that may be absent becomes an `Option` of the parsed table;
* the scikit-learn estimators themselves are opaque parameters (functions),
  while every piece of surrounding logic is translated from the source.
-/

namespace MedPipe

/-- `pandas.unique` / first-seen deduplication: keeps the first occurrence of
each element, in order of first appearance. -/
def uniqueFirst {α : Type} [DecidableEq α] : List α → List α
  | [] => []
  | x :: xs => x :: (uniqueFirst xs).filter (fun y => y ≠ x)

/-- Index of the first occurrence of `s` in `l`, if present.  On a
duplicate-free list this is exactly the Python dict
`\x7bs : i for i, s in enumerate(l)\x7d`. -/
def idxIn {α : Type} [DecidableEq α] : List α → α → Option ℕ
  | [], _ => none
  | x :: xs, s => if x = s then some 0 else (idxIn xs s).map (· + 1)

/-- Insert into a sorted list (helper for the sorts pandas/sklearn perform). -/
def insort {α : Type} [LinearOrder α] (x : α) : List α → List α
  | [] => [x]
  | y :: ys => if x ≤ y then x :: y :: ys else y :: insort x ys

/-- Insertion sort, modelling `sorted` / the sorting pandas `groupby` and
sklearn `unique_labels` perform on keys. -/
def sortList {α : Type} [LinearOrder α] (l : List α) : List α := l.foldr insort []

/-! ### Basic lemmas about the helpers -/

theorem mem_uniqueFirst {α : Type} [DecidableEq α] (l : List α) (a : α) :
    a ∈ uniqueFirst l ↔ a ∈ l := by
  induction l with
  | nil => simp [uniqueFirst]
  | cons x xs ih =>
    simp only [uniqueFirst, List.mem_cons, List.mem_filter, ih]
    by_cases hax : a = x
    · simp [hax]
    · simp [hax]

theorem nodup_uniqueFirst {α : Type} [DecidableEq α] (l : List α) :
    (uniqueFirst l).Nodup := by
  induction l with
  | nil => simp [uniqueFirst]
  | cons x xs ih =>
    simp only [uniqueFirst, List.nodup_cons]
    refine ⟨fun hx => ?_, ih.filter _⟩
    have := (List.mem_filter.mp hx).2
    simp at this

theorem idxIn_lt_length {α : Type} [DecidableEq α] (l : List α) (s : α) (i : ℕ)
    (h : idxIn l s = some i) : i < l.length := by
  induction l generalizing i with
  | nil => simp [idxIn] at h
  | cons x xs ih =>
    simp only [idxIn] at h
    by_cases hx : x = s
    · rw [if_pos hx] at h
      have : i = 0 := by
        have := Option.some.inj h
        omega
      simp [this]
    · rw [if_neg hx] at h
      rw [Option.map_eq_some'] at h
      obtain ⟨j, hj, hji⟩ := h
      have := ih j hj
      simp only [List.length_cons]
      omega

theorem idxIn_isSome_iff_mem {α : Type} [DecidableEq α] (l : List α) (s : α) :
    (idxIn l s).isSome ↔ s ∈ l := by
  induction l with
  | nil => simp [idxIn]
  | cons x xs ih =>
    simp only [idxIn, List.mem_cons]
    by_cases hx : x = s
    · simp [hx]
    · rw [if_neg hx]
      rw [show (Option.map (fun x => x + 1) (idxIn xs s)).isSome = (idxIn xs s).isSome by
        cases idxIn xs s <;> rfl]
      rw [ih]
      constructor
      · exact fun h => Or.inr h
      · rintro (h | h)
        · exact absurd h.symm hx
        · exact h

theorem perm_insort {α : Type} [LinearOrder α] (x : α) (l : List α) :
    List.Perm (insort x l) (x :: l) := by
  induction l with
  | nil => simp [insort]
  | cons y ys ih =>
    simp only [insort]
    by_cases h : x ≤ y
    · simp [h]
    · simp only [if_neg h]
      exact (ih.cons y).trans (List.Perm.swap x y ys)

theorem perm_sortList {α : Type} [LinearOrder α] (l : List α) :
    List.Perm (sortList l) l := by
  induction l with
  | nil => simp [sortList]
  | cons x xs ih =>
    simp only [sortList, List.foldr_cons]
    exact (perm_insort x _).trans (ih.cons x)

theorem mem_sortList {α : Type} [LinearOrder α] (l : List α) (a : α) :
    a ∈ sortList l ↔ a ∈ l := (perm_sortList l).mem_iff

theorem nodup_sortList {α : Type} [LinearOrder α] (l : List α) (h : l.Nodup) :
    (sortList l).Nodup := ((perm_sortList l).nodup_iff).mpr h

/-! ### Data model (schemas of the input tables, data_loader.py) -/

/-- Row of the symptom table (schema from `load_symptom_data`). -/
structure SymptomRow where
  symptom_id : String
  name : String
  description : String
  category : String
  body_part : String
  severity_scale : String
  common_duration : String
  icd_code : String
  snomed_code : String
deriving DecidableEq

/-- Row of the disease table (schema from `load_disease_data`). -/
structure DiseaseRow where
  disease_id : String
  name : String
  description : String
  category : String
  icd_code : String
  snomed_code : String
  common_symptoms : String
  required_symptoms : String
  exclusionary_symptoms : String
  prevalence : String
  severity : String
deriving DecidableEq

/-- Row of the symptom text table (schema from `load_symptom_text_data`;
the `ann_entries` field models the annotations column). -/
structure TextRow where
  text_id : String
  text : String
  ann_entries : String
  source : String
deriving DecidableEq

/-- Row of the symptom-disease relationship table (one observation of one
symptom in one case; schema from `generate_symptom_disease_relationships`). -/
structure RelRow where
  case_id : String
  disease_id : String
  symptom_id : String
  is_required : Bool
  severity : String
  duration : String
deriving DecidableEq

/-! ### data_loader.py : loading with missing-file fallback -/

/-- `MedicalDataLoader.load_symptom_data`: if the file is absent, an empty
frame with the expected schema is produced; otherwise the file contents. -/
def load_symptom_data (file : Option (List SymptomRow)) : List SymptomRow :=
  match file with
  | none => []
  | some rows => rows

/-- `MedicalDataLoader.load_disease_data`: same missing-file fallback. -/
def load_disease_data (file : Option (List DiseaseRow)) : List DiseaseRow :=
  match file with
  | none => []
  | some rows => rows

/-- `MedicalDataLoader.load_symptom_text_data`: same missing-file fallback. -/
def load_symptom_text_data (file : Option (List TextRow)) : List TextRow :=
  match file with
  | none => []
  | some rows => rows

/-! ### data_loader.py : feature encoding and training-data preparation -/

/-- The one-hot encoding loop shared verbatim by
`MedicalDataLoader.prepare_disease_prediction_data` and
`ModelEvaluator._prepare_disease_prediction_data`: start from `np.zeros(n)`
and set the mapped index to 1 for every id present in the mapping; ids absent
from the mapping are skipped without error. -/
def encodeLoop (lookup : String → Option ℕ) (n : ℕ) (ids : List String) : List ℕ :=
  ids.foldl
    (fun vec s =>
      match lookup s with
      | some i => vec.set i 1
      | none => vec)
    (List.replicate n 0)

/-- Training-time symptom encoding of `prepare_disease_prediction_data`:
the mapping is `symptom_to_idx` built by enumerating the unique symptom ids,
the vector length is the size of the symptom universe. -/
def encodeSymptoms (allSymptoms : List String) (ids : List String) : List ℕ :=
  encodeLoop (idxIn allSymptoms) allSymptoms.length ids

/-- Evaluation-time symptom encoding of
`ModelEvaluator._prepare_disease_prediction_data`: the mapping is the
`feature_mapping.json` dictionary (an association list), the vector length is
`len(feature_mapping)`. -/
def evalEncodeFeatures (fm : List (String × ℕ)) (ids : List String) : List ℕ :=
  encodeLoop (fun s => fm.lookup s) fm.length ids

/-- Rows of one `groupby('case_id')` group: rows with the given case id, in
original order. -/
def groupRows (rel : List RelRow) (c : String) : List RelRow :=
  rel.filter (fun r => r.case_id = c)

/-- Group keys of `groupby('case_id')` (sorted, as pandas sorts group keys). -/
def caseKeys (rel : List RelRow) : List String :=
  sortList (uniqueFirst (rel.map (fun r => r.case_id)))

/-- The per-case body of the loop in `prepare_disease_prediction_data`:
the case's one-hot symptom vector is paired with the label of every distinct
mapped disease id of the group; disease ids absent from `disease_to_idx`
contribute nothing. -/
def casePairs (allSymptoms allDiseases : List String) (g : List RelRow) :
    List (List ℕ × ℤ) :=
  let vec := encodeSymptoms allSymptoms (uniqueFirst (g.map (fun r => r.symptom_id)))
  (uniqueFirst (g.map (fun r => r.disease_id))).filterMap
    (fun d =>
      match idxIn allDiseases d with
      | some k => some (vec, (k : ℤ))
      | none => none)

/-- The (X entry, y entry) pairs appended by the case loop of
`prepare_disease_prediction_data`: for each `groupby('case_id')` group, the
pairs produced by `casePairs` with the mappings built from the unique symptom
and disease ids of the two tables. -/
def preparePairs (symTable : List SymptomRow) (disTable : List DiseaseRow)
    (rel : List RelRow) : List (List ℕ × ℤ) :=
  (caseKeys rel).flatMap
    (fun c =>
      casePairs (uniqueFirst (symTable.map (fun r => r.symptom_id)))
        (uniqueFirst (disTable.map (fun r => r.disease_id)))
        (groupRows rel c))

/-- `MedicalDataLoader.prepare_disease_prediction_data`: empty symptom or
disease table, or a missing relationship file, yields empty arrays; otherwise
the mappings are built from the unique ids and the cases are encoded, `X` and
`y` being the parallel lists appended by the case loop. -/
def prepare_disease_prediction_data (symTable : List SymptomRow)
    (disTable : List DiseaseRow) (relFile : Option (List RelRow)) :
    List (List ℕ) × List ℤ :=
  if symTable.length = 0 ∨ disTable.length = 0 then ([], [])
  else
    match relFile with
    | none => ([], [])
    | some rel =>
      ((preparePairs symTable disTable rel).map Prod.fst,
        (preparePairs symTable disTable rel).map Prod.snd)

/-! ### Lemmas about the one-hot encoding loop -/

theorem getD_set_self (v : List ℕ) (i : ℕ) (h : i < v.length) :
    (v.set i 1).getD i 0 = 1 := by
  rw [List.getD_eq_getElem?_getD, List.getElem?_set]
  simp [h]

theorem getD_set_other (v : List ℕ) (i j : ℕ) (h : i ≠ j) :
    (v.set i 1).getD j 0 = v.getD j 0 := by
  rw [List.getD_eq_getElem?_getD, List.getElem?_set, if_neg h,
    List.getD_eq_getElem?_getD]

theorem encodeStep_length (lookup : String → Option ℕ) (v : List ℕ) (s : String) :
    (match lookup s with
      | some i => v.set i 1
      | none => v).length = v.length := by
  cases lookup s <;> simp

theorem encodeFold_length (lookup : String → Option ℕ) (ids : List String)
    (v : List ℕ) :
    (ids.foldl
      (fun vec s =>
        match lookup s with
        | some i => vec.set i 1
        | none => vec) v).length = v.length := by
  induction ids generalizing v with
  | nil => rfl
  | cons s rest ih =>
    rw [List.foldl_cons, ih]
    exact encodeStep_length lookup v s

theorem encodeLoop_length (lookup : String → Option ℕ) (n : ℕ) (ids : List String) :
    (encodeLoop lookup n ids).length = n := by
  rw [encodeLoop, encodeFold_length, List.length_replicate]

theorem encodeFold_getD (lookup : String → Option ℕ) (ids : List String)
    (v : List ℕ) (j : ℕ) (hrange : ∀ s i, lookup s = some i → i < v.length) :
    (ids.foldl
      (fun vec s =>
        match lookup s with
        | some i => vec.set i 1
        | none => vec) v).getD j 0 =
      if ∃ s ∈ ids, lookup s = some j then 1 else v.getD j 0 := by
  induction ids generalizing v with
  | nil => simp
  | cons s rest ih =>
    rw [List.foldl_cons]
    have hstep : ∀ s' i, lookup s' = some i →
        i < (match lookup s with | some i => v.set i 1 | none => v).length := by
      intro s' i hi
      rw [encodeStep_length]
      exact hrange s' i hi
    rw [ih _ hstep]
    by_cases hrest : ∃ t ∈ rest, lookup t = some j
    · rw [if_pos hrest, if_pos]
      obtain ⟨t, ht, hlt⟩ := hrest
      exact ⟨t, List.mem_cons_of_mem s ht, hlt⟩
    · rw [if_neg hrest]
      cases hs : lookup s with
      | none =>
        simp only [hs]
        rw [if_neg]
        rintro ⟨t, ht, hlt⟩
        rcases List.mem_cons.mp ht with rfl | ht'
        · rw [hs] at hlt
          exact Option.noConfusion hlt
        · exact hrest ⟨t, ht', hlt⟩
      | some i =>
        simp only [hs]
        by_cases hij : i = j
        · subst hij
          rw [getD_set_self v i (hrange s i hs), if_pos ⟨s, List.mem_cons_self s rest, hs⟩]
        · rw [getD_set_other v i j hij, if_neg]
          rintro ⟨t, ht, hlt⟩
          rcases List.mem_cons.mp ht with rfl | ht'
          · rw [hs] at hlt
            exact hij (Option.some.inj hlt)
          · exact hrest ⟨t, ht', hlt⟩

theorem getD_replicate_zero (n j : ℕ) :
    (List.replicate n (0 : ℕ)).getD j 0 = 0 := by
  rw [List.getD_eq_getElem?_getD, List.getElem?_replicate]
  split <;> rfl

theorem encodeLoop_getD (lookup : String → Option ℕ) (n : ℕ) (ids : List String)
    (j : ℕ) (hrange : ∀ s i, lookup s = some i → i < n) :
    (encodeLoop lookup n ids).getD j 0 =
      if ∃ s ∈ ids, lookup s = some j then 1 else 0 := by
  rw [encodeLoop, encodeFold_getD]
  · rw [getD_replicate_zero]
  · intro s i hi
    rw [List.length_replicate]
    exact hrange s i hi

theorem encodeFold_mem (lookup : String → Option ℕ) (ids : List String)
    (v : List ℕ) (hv : ∀ e ∈ v, e = 0 ∨ e = 1) :
    ∀ e ∈ ids.foldl
      (fun vec s =>
        match lookup s with
        | some i => vec.set i 1
        | none => vec) v, e = 0 ∨ e = 1 := by
  induction ids generalizing v with
  | nil => exact hv
  | cons s rest ih =>
    rw [List.foldl_cons]
    apply ih
    cases hs : lookup s with
    | none => simpa [hs] using hv
    | some i =>
      simp only [hs]
      intro e he
      rcases List.mem_or_eq_of_mem_set he with h | h
      · exact hv e h
      · exact Or.inr h

theorem encodeLoop_mem (lookup : String → Option ℕ) (n : ℕ) (ids : List String) :
    ∀ e ∈ encodeLoop lookup n ids, e = 0 ∨ e = 1 := by
  apply encodeFold_mem
  intro e he
  exact Or.inl (List.eq_of_mem_replicate he)

theorem lookup_mem {β : Type} (fm : List (String × β)) (s : String) (i : β)
    (h : fm.lookup s = some i) : (s, i) ∈ fm := by
  induction fm with
  | nil => simp [List.lookup] at h
  | cons p rest ih =>
    rw [List.lookup] at h
    by_cases hp : s = p.1
    · have hbeq : (s == p.1) = true := beq_iff_eq.mpr hp
      rw [hbeq] at h
      have hpi : p.2 = i := Option.some.inj h
      have : (s, i) = p := by
        rw [hp, ← hpi]
      rw [this]
      exact List.mem_cons_self p rest
    · have hbeq : (s == p.1) = false := beq_eq_false_iff_ne.mpr hp
      rw [hbeq] at h
      exact List.mem_cons_of_mem p (ih h)

/-- C4: the feature encoder produces a 0/1 vector of length equal to the size
of the symptom universe (training) or of the feature mapping (evaluation),
with 1 exactly at the indices the mapping assigns to the case's symptom ids
and 0 everywhere else; symptom ids absent from the mapping are silently
ignored in both encoders. -/
theorem C4_one_hot_encoding (u ids : List String) (fm : List (String × ℕ))
    (ids2 : List String) (j j2 : ℕ) (hfm : ∀ p ∈ fm, p.2 < fm.length) :
    ((encodeSymptoms u ids).length = u.length ∧
      (encodeSymptoms u ids).getD j 0 =
        (if ∃ s ∈ ids, idxIn u s = some j then 1 else 0)) ∧
    ((evalEncodeFeatures fm ids2).length = fm.length ∧
      (evalEncodeFeatures fm ids2).getD j2 0 =
        (if ∃ s ∈ ids2, fm.lookup s = some j2 then 1 else 0)) := by
  refine ⟨⟨encodeLoop_length _ _ _, ?_⟩, ⟨encodeLoop_length _ _ _, ?_⟩⟩
  · exact encodeLoop_getD _ _ _ _ (fun s i hi => idxIn_lt_length u s i hi)
  · exact encodeLoop_getD _ _ _ _ (fun s i hi => hfm (s, i) (lookup_mem fm s i hi))

/-- Witness for C4 at a concrete universe, mapping and case: the unknown id
is ignored, mapped ids set exactly their assigned index. -/
theorem C4_one_hot_encoding_witness :
    (∀ p ∈ [("sA", 0), ("sB", 1)], p.2 < ([("sA", 0), ("sB", 1)] : List (String × ℕ)).length) ∧
    (((encodeSymptoms ["s1", "s2"] ["s2", "sX"]).length = (["s1", "s2"] : List String).length ∧
      (encodeSymptoms ["s1", "s2"] ["s2", "sX"]).getD 1 0 =
        (if ∃ s ∈ ["s2", "sX"], idxIn ["s1", "s2"] s = some 1 then 1 else 0)) ∧
    ((evalEncodeFeatures [("sA", 0), ("sB", 1)] ["sB", "sZ"]).length =
        ([("sA", 0), ("sB", 1)] : List (String × ℕ)).length ∧
      (evalEncodeFeatures [("sA", 0), ("sB", 1)] ["sB", "sZ"]).getD 0 0 =
        (if ∃ s ∈ ["sB", "sZ"], ([("sA", 0), ("sB", 1)] : List (String × ℕ)).lookup s = some 0
          then 1 else 0))) :=
  ⟨by decide, C4_one_hot_encoding ["s1", "s2"] ["s2", "sX"] [("sA", 0), ("sB", 1)]
    ["sB", "sZ"] 1 0 (by decide)⟩

/-! ### model_evaluator.py : test-data preparation -/

/-- One case of the disease-prediction evaluation test file: a list of
symptom ids and a ground-truth disease id. -/
structure EvalCase where
  symptoms : List String
  disease_id : String
deriving DecidableEq

/-- Label extraction of `ModelEvaluator._prepare_disease_prediction_data`:
a mapped disease id gets its index, an unmapped one the sentinel -1. -/
def evalLabel (dm : List (String × ℤ)) (c : EvalCase) : ℤ :=
  match dm.lookup c.disease_id with
  | some i => i
  | none => -1

/-- `ModelEvaluator._prepare_disease_prediction_data`: one-hot features from
the persisted feature mapping and labels from the persisted disease mapping,
appended case by case. -/
def evalPrepareData (fm : List (String × ℕ)) (dm : List (String × ℤ))
    (cases : List EvalCase) : List (List ℕ) × List ℤ :=
  (cases.map (fun c => evalEncodeFeatures fm c.symptoms),
    cases.map (evalLabel dm))

/-! ### Structure of the training pairs -/

theorem casePairs_spec (allS allD : List String) (g : List RelRow)
    (p : List ℕ × ℤ) (hp : p ∈ casePairs allS allD g) :
    (∀ e ∈ p.1, e = 0 ∨ e = 1) ∧ 0 ≤ p.2 ∧ p.2 < (allD.length : ℤ) := by
  simp only [casePairs, List.mem_filterMap] at hp
  obtain ⟨d, hd, hfd⟩ := hp
  cases hidx : idxIn allD d with
  | none =>
    rw [hidx] at hfd
    exact Option.noConfusion hfd
  | some k =>
    rw [hidx] at hfd
    have hpk := Option.some.inj hfd
    subst hpk
    refine ⟨?_, ?_, ?_⟩
    · intro e he
      simp only [encodeSymptoms] at he
      exact encodeLoop_mem _ _ _ e he
    · exact Int.ofNat_nonneg k
    · show (k : ℤ) < (allD.length : ℤ)
      exact_mod_cast idxIn_lt_length allD d k hidx

theorem preparePairs_spec (sym : List SymptomRow) (dis : List DiseaseRow)
    (rel : List RelRow) (p : List ℕ × ℤ) (hp : p ∈ preparePairs sym dis rel) :
    (∀ e ∈ p.1, e = 0 ∨ e = 1) ∧ 0 ≤ p.2 ∧
      p.2 < ((uniqueFirst (dis.map (fun r => r.disease_id))).length : ℤ) := by
  simp only [preparePairs, List.mem_flatMap] at hp
  obtain ⟨c, _, hpc⟩ := hp
  exact casePairs_spec _ _ _ p hpc

theorem prepare_shape (sym : List SymptomRow) (dis : List DiseaseRow)
    (relFile : Option (List RelRow)) :
    prepare_disease_prediction_data sym dis relFile = ([], []) ∨
    ∃ rel, relFile = some rel ∧
      prepare_disease_prediction_data sym dis relFile =
        ((preparePairs sym dis rel).map Prod.fst,
          (preparePairs sym dis rel).map Prod.snd) := by
  unfold prepare_disease_prediction_data
  split
  · exact Or.inl rfl
  · split
    · exact Or.inl rfl
    · rename_i rel
      exact Or.inr ⟨rel, rfl, rfl⟩

/-- C10: the (X, y) produced by training-data preparation always has equally
many feature rows and labels, every feature entry is 0 or 1, and every label
is a valid index into the distinct-disease-id universe (in particular the -1
fallback never appears in training labels). -/
theorem C10_training_data_invariants (sym : List SymptomRow)
    (dis : List DiseaseRow) (relFile : Option (List RelRow)) :
    (prepare_disease_prediction_data sym dis relFile).1.length =
      (prepare_disease_prediction_data sym dis relFile).2.length ∧
    (∀ row ∈ (prepare_disease_prediction_data sym dis relFile).1,
      ∀ e ∈ row, e = 0 ∨ e = 1) ∧
    (∀ lab ∈ (prepare_disease_prediction_data sym dis relFile).2,
      0 ≤ lab ∧ lab < ((uniqueFirst (dis.map (fun r => r.disease_id))).length : ℤ)) := by
  rcases prepare_shape sym dis relFile with h | ⟨rel, _, h⟩
  · rw [h]
    refine ⟨rfl, ?_, ?_⟩ <;> intro x hx <;> simp at hx
  · rw [h]
    refine ⟨by simp, ?_, ?_⟩
    · intro row hrow
      rw [List.mem_map] at hrow
      obtain ⟨p, hp, hpr⟩ := hrow
      subst hpr
      exact (preparePairs_spec sym dis rel p hp).1
    · intro lab hlab
      rw [List.mem_map] at hlab
      obtain ⟨p, hp, hpl⟩ := hlab
      subst hpl
      exact (preparePairs_spec sym dis rel p hp).2

/-- Witness for C10 at a concrete one-case dataset (case "c1" observes
symptom "s1" and is diagnosed with "d1"): the single produced label 0 is a
valid index of the one-disease universe. -/
theorem C10_training_data_invariants_witness :
    ((prepare_disease_prediction_data [⟨"s1", "", "", "", "", "", "", "", ""⟩]
        [⟨"d1", "", "", "", "", "", "", "", "", "", ""⟩]
        (some [⟨"c1", "d1", "s1", false, "", ""⟩])).1.length =
      (prepare_disease_prediction_data [⟨"s1", "", "", "", "", "", "", "", ""⟩]
        [⟨"d1", "", "", "", "", "", "", "", "", "", ""⟩]
        (some [⟨"c1", "d1", "s1", false, "", ""⟩])).2.length) ∧
    ((0 : ℤ) ∈ (prepare_disease_prediction_data [⟨"s1", "", "", "", "", "", "", "", ""⟩]
        [⟨"d1", "", "", "", "", "", "", "", "", "", ""⟩]
        (some [⟨"c1", "d1", "s1", false, "", ""⟩])).2) ∧
    ((0 : ℤ) ≤ 0 ∧ (0 : ℤ) <
      ((uniqueFirst (([⟨"d1", "", "", "", "", "", "", "", "", "", ""⟩] :
        List DiseaseRow).map (fun r => r.disease_id))).length : ℤ)) :=
  ⟨(C10_training_data_invariants [⟨"s1", "", "", "", "", "", "", "", ""⟩]
      [⟨"d1", "", "", "", "", "", "", "", "", "", ""⟩]
      (some [⟨"c1", "d1", "s1", false, "", ""⟩])).1,
    by decide,
    (C10_training_data_invariants [⟨"s1", "", "", "", "", "", "", "", ""⟩]
      [⟨"d1", "", "", "", "", "", "", "", "", "", ""⟩]
      (some [⟨"c1", "d1", "s1", false, "", ""⟩])).2.2 0 (by decide)⟩

/-- C2 counterexample: a relationship table whose only case carries a disease
id absent from the disease table is NOT rejected with an error by the
training encode — `prepare_disease_prediction_data` returns normally with the
case silently dropped (empty arrays here), refuting "fatal for training
encodes". -/
theorem C2_counterexample :
    prepare_disease_prediction_data
      [⟨"s1", "", "", "", "", "", "", "", ""⟩]
      [⟨"d1", "", "", "", "", "", "", "", "", "", ""⟩]
      (some [⟨"c1", "dX", "s1", false, "", ""⟩]) = ([], []) := by
  decide

/-- C2 (amended): a training-encode case whose disease id is absent from the
disease-id-to-index mapping is silently skipped — it contributes no training
row and is never defaulted to any label (labels are always nonnegative, so
the -1 fallback never appears) — while the inference-time evaluator maps an
unmapped disease id to the sentinel label -1 instead of crashing. -/
theorem C2_unmapped_disease_handling :
    (∀ (sym : List SymptomRow) (dis : List DiseaseRow) (rel : List RelRow),
      ∀ lab ∈ (prepare_disease_prediction_data sym dis (some rel)).2, 0 ≤ lab) ∧
    (∀ (sym : List SymptomRow) (dis : List DiseaseRow) (rel : List RelRow),
      (∀ r ∈ rel,
        idxIn (uniqueFirst (dis.map (fun x => x.disease_id))) r.disease_id = none) →
      prepare_disease_prediction_data sym dis (some rel) = ([], [])) ∧
    (∀ (dm : List (String × ℤ)) (c : EvalCase),
      dm.lookup c.disease_id = none → evalLabel dm c = -1) := by
  refine ⟨?_, ?_, ?_⟩
  · intro sym dis rel lab hlab
    rcases prepare_shape sym dis (some rel) with h | ⟨rel', _, h⟩
    · rw [h] at hlab
      simp at hlab
    · rw [h] at hlab
      rw [List.mem_map] at hlab
      obtain ⟨p, hp, hpl⟩ := hlab
      subst hpl
      exact (preparePairs_spec sym dis rel' p hp).2.1
  · intro sym dis rel hall
    rcases prepare_shape sym dis (some rel) with h | ⟨rel', heq, h⟩
    · exact h
    · have hrel : rel' = rel := by
        injection heq with h'
        exact h'.symm
      subst hrel
      rw [h]
      have hpairs : preparePairs sym dis rel' = [] := by
        simp only [preparePairs]
        rw [List.flatMap_eq_nil_iff]
        intro c _
        simp only [casePairs]
        rw [List.filterMap_eq_nil_iff]
        intro d hd
        rw [mem_uniqueFirst] at hd
        rw [List.mem_map] at hd
        obtain ⟨r, hr, hrd⟩ := hd
        simp only [groupRows] at hr
        have hrrel : r ∈ rel' := (List.mem_filter.mp hr).1
        rw [← hrd, hall r hrrel]
      rw [hpairs]
      rfl
  · intro dm c h
    rw [evalLabel, h]

/-! ### model_trainer.py : load_data and the training entry point (C9) -/

/-- The message of the `ValueError` raised by `DiseasePredictionTrainer.load_data`
when preparation yields no data. -/
def noDataMsg : String := "No data available for training"

/-- `DiseasePredictionTrainer.load_data`, from-scratch branch (no processed
cache on disk): prepare (X, y) from the raw tables; empty X or y raises the
"no data" error; only in the non-empty branch is the (X, y) handed on to
`split_data` (whose size arithmetic is modelled separately). -/
def trainer_load_data (symFile : Option (List SymptomRow))
    (disFile : Option (List DiseaseRow)) (relFile : Option (List RelRow)) :
    Except String (List (List ℕ) × List ℤ) :=
  let prepared := prepare_disease_prediction_data (load_symptom_data symFile)
    (load_disease_data disFile) relFile
  if prepared.1.length = 0 ∨ prepared.2.length = 0 then Except.error noDataMsg
  else Except.ok prepared

theorem prepare_none_rel (sym : List SymptomRow) (dis : List DiseaseRow) :
    prepare_disease_prediction_data sym dis none = ([], []) := by
  unfold prepare_disease_prediction_data
  split
  · rfl
  · rfl

theorem prepare_empty_sym (dis : List DiseaseRow) (relFile : Option (List RelRow)) :
    prepare_disease_prediction_data [] dis relFile = ([], []) := by
  unfold prepare_disease_prediction_data
  rw [if_pos]
  left
  rfl

theorem prepare_empty_dis (sym : List SymptomRow) (relFile : Option (List RelRow)) :
    prepare_disease_prediction_data sym [] relFile = ([], []) := by
  unfold prepare_disease_prediction_data
  rw [if_pos]
  right
  rfl

theorem prepare_empty_rel (sym : List SymptomRow) (dis : List DiseaseRow) :
    prepare_disease_prediction_data sym dis (some []) = ([], []) := by
  unfold prepare_disease_prediction_data
  split
  · rfl
  · rfl

/-- C9: a missing input file yields an empty container of the expected schema
at load time, and the resulting empty dataset surfaces only at the training
entry point, where `load_data` raises the explicit "No data available for
training" error before any splitting — likewise for an existing but empty
case table. -/
theorem C9_missing_input_handling :
    load_symptom_data none = [] ∧
    load_disease_data none = [] ∧
    load_symptom_text_data none = [] ∧
    (∀ (sym : List SymptomRow) (dis : List DiseaseRow),
      prepare_disease_prediction_data sym dis none = ([], [])) ∧
    noDataMsg = "No data available for training" ∧
    (∀ (symFile : Option (List SymptomRow)) (disFile : Option (List DiseaseRow))
      (relFile : Option (List RelRow)),
      symFile = none ∨ disFile = none ∨ relFile = none →
      trainer_load_data symFile disFile relFile = Except.error noDataMsg) ∧
    (∀ (symFile : Option (List SymptomRow)) (disFile : Option (List DiseaseRow)),
      trainer_load_data symFile disFile (some []) = Except.error noDataMsg) := by
  refine ⟨rfl, rfl, rfl, prepare_none_rel, rfl, ?_, ?_⟩
  · intro symFile disFile relFile h
    rw [trainer_load_data]
    rcases h with h | h | h
    · subst h
      rw [show load_symptom_data none = [] from rfl, prepare_empty_sym]
      rfl
    · subst h
      rw [show load_disease_data none = [] from rfl, prepare_empty_dis]
      rfl
    · subst h
      rw [prepare_none_rel]
      rfl
  · intro symFile disFile
    rw [trainer_load_data, prepare_empty_rel]
    rfl

/-- Witness for C9: with every input file absent, and with an empty case
table, loading for training produces the explicit error. -/
theorem C9_missing_input_handling_witness :
    ((none : Option (List SymptomRow)) = none ∨
      (none : Option (List DiseaseRow)) = none ∨
      (none : Option (List RelRow)) = none) ∧
    trainer_load_data none none none = Except.error noDataMsg ∧
    trainer_load_data (some [⟨"s1", "", "", "", "", "", "", "", ""⟩])
      (some [⟨"d1", "", "", "", "", "", "", "", "", "", ""⟩]) (some []) =
      Except.error noDataMsg :=
  ⟨Or.inl rfl,
    C9_missing_input_handling.2.2.2.2.2.1 none none none (Or.inl rfl),
    C9_missing_input_handling.2.2.2.2.2.2
      (some [⟨"s1", "", "", "", "", "", "", "", ""⟩])
      (some [⟨"d1", "", "", "", "", "", "", "", "", "", ""⟩])⟩

/-! ### model_trainer.py : persistence (C1) -/

/-- State of the trainer at save time: the keys of `self.models` (which may
include the sentinel key "best_model") and the keys of `self.scalers`. -/
structure TrainerState where
  modelNames : List String
  scalerNames : List String

/-- File names written into the run directory by
`DiseasePredictionTrainer.save_models`: one pickle per model (the
"best_model" sentinel entry is skipped), one pickle per scaler, and the
metadata JSON. -/
def save_models_files (st : TrainerState) : List String :=
  (st.modelNames.filter (fun m => m ≠ "best_model")).map (fun m => m ++ ".pkl") ++
    st.scalerNames.map (fun s => s ++ ".pkl") ++ ["metadata.json"]

/-- File names `ModelEvaluator.evaluate_disease_prediction` unconditionally
opens in the model directory (besides the per-model pickles, which are
optional there). -/
def evaluator_required_files : List String :=
  ["feature_scaler.pkl", "feature_mapping.json", "disease_mapping.json"]

theorem append_pkl_last (s : String) :
    (s ++ ".pkl").data.getLast? = some 'l' := by
  have h : (s ++ ".pkl").data = s.data ++ ".pkl".data := String.data_append s ".pkl"
  rw [h, List.getLast?_append_of_ne_nil]
  · rfl
  · decide

theorem append_pkl_ne (s t : String) (ht : t.data.getLast? ≠ some 'l') :
    s ++ ".pkl" ≠ t := by
  intro h
  apply ht
  rw [← h]
  exact append_pkl_last s

/-- C1 (as falsified): the trainer's save operation never produces the two
JSON index-mapping files (`feature_mapping.json`, `disease_mapping.json`)
that the disease-prediction evaluator later loads, whatever models and
scalers were trained. -/
theorem C1_mapping_files_never_saved :
    (∀ st : TrainerState,
      "feature_mapping.json" ∉ save_models_files st ∧
      "disease_mapping.json" ∉ save_models_files st) ∧
    "feature_mapping.json" ∈ evaluator_required_files ∧
    "disease_mapping.json" ∈ evaluator_required_files := by
  refine ⟨?_, by decide, by decide⟩
  intro st
  constructor
  · intro hmem
    simp only [save_models_files, List.mem_append, List.mem_map,
      List.mem_singleton] at hmem
    rcases hmem with (⟨m, _, hm⟩ | ⟨m, _, hm⟩) | hm
    · exact append_pkl_ne m _ (by decide) hm
    · exact append_pkl_ne m _ (by decide) hm
    · exact absurd hm (by decide)
  · intro hmem
    simp only [save_models_files, List.mem_append, List.mem_map,
      List.mem_singleton] at hmem
    rcases hmem with (⟨m, _, hm⟩ | ⟨m, _, hm⟩) | hm
    · exact append_pkl_ne m _ (by decide) hm
    · exact append_pkl_ne m _ (by decide) hm
    · exact absurd hm (by decide)

/-- Witness for C1 at a concrete trained state (all three models plus the
best-model sentinel and the standard scaler): neither mapping file that the
evaluator requires is among the files the trainer saves. -/
theorem C1_mapping_files_never_saved_witness :
    "feature_mapping.json" ∉ save_models_files
      ⟨["random_forest", "gradient_boosting", "neural_network", "best_model"],
        ["standard_scaler"]⟩ ∧
    "disease_mapping.json" ∉ save_models_files
      ⟨["random_forest", "gradient_boosting", "neural_network", "best_model"],
        ["standard_scaler"]⟩ ∧
    "feature_mapping.json" ∈ evaluator_required_files ∧
    "disease_mapping.json" ∈ evaluator_required_files :=
  ⟨(C1_mapping_files_never_saved.1
      ⟨["random_forest", "gradient_boosting", "neural_network", "best_model"],
        ["standard_scaler"]⟩).1,
    (C1_mapping_files_never_saved.1
      ⟨["random_forest", "gradient_boosting", "neural_network", "best_model"],
        ["standard_scaler"]⟩).2,
    C1_mapping_files_never_saved.2.1,
    C1_mapping_files_never_saved.2.2⟩

/-! ### model_trainer.py : best-model selection (C5) -/

/-- The classifiers of `train_models` in declaration order. -/
def declaredModels : List String :=
  ["random_forest", "gradient_boosting", "neural_network"]

/-- The `model_performances` dictionary built by `train_models`: one entry
per configured classifier, inserted in declaration order, holding its
validation accuracy (the trained estimators themselves are external, so the
accuracy of each is a parameter). -/
def modelPerformances (modelsToTrain : List String) (accOf : String → ℚ) :
    List (String × ℚ) :=
  (declaredModels.filter (fun m => m ∈ modelsToTrain)).map (fun m => (m, accOf m))

/-- Python's `max(model_performances, key=model_performances.get)`: scan in
insertion order, replacing the current best only on a strictly greater
value. -/
def pickBest (ps : List (String × ℚ)) : Option (String × ℚ) :=
  match ps with
  | [] => none
  | p :: rest => some (rest.foldl (fun best q => if best.2 < q.2 then q else best) p)

/-- `self.models['best_model']`: only the winning name string is recorded. -/
def bestModelName (ps : List (String × ℚ)) : Option String :=
  (pickBest ps).map Prod.fst

theorem foldBest_spec (l : List (String × ℚ)) (p : String × ℚ) :
    ∃ pre post,
      p :: l = pre ++ (l.foldl (fun best q => if best.2 < q.2 then q else best) p) :: post ∧
      (∀ q ∈ pre, q.2 < (l.foldl (fun best q => if best.2 < q.2 then q else best) p).2) ∧
      (∀ q ∈ post, q.2 ≤ (l.foldl (fun best q => if best.2 < q.2 then q else best) p).2) := by
  induction l generalizing p with
  | nil => exact ⟨[], [], rfl, by simp, by simp⟩
  | cons q rest ih =>
    rw [List.foldl_cons]
    by_cases hpq : p.2 < q.2
    · rw [if_pos hpq]
      obtain ⟨pre, post, heq, hpre, hpost⟩ := ih q
      have hqb : q.2 ≤ (rest.foldl (fun best q => if best.2 < q.2 then q else best) q).2 := by
        cases pre with
        | nil =>
          have : q = (rest.foldl (fun best q => if best.2 < q.2 then q else best) q) := by
            have := heq
            simp only [List.nil_append] at this
            exact (List.cons.inj this).1
          rw [← this]
        | cons a pre' =>
          have ha : a = q := by
            have := heq
            simp only [List.cons_append] at this
            exact ((List.cons.inj this).1).symm
          have : q ∈ a :: pre' := by
            rw [ha]
            exact List.mem_cons_self _ _
          exact le_of_lt (hpre q this)
      refine ⟨p :: pre, post, ?_, ?_, hpost⟩
      · rw [List.cons_append, ← heq]
      · intro x hx
        rcases List.mem_cons.mp hx with rfl | hx'
        · exact lt_of_lt_of_le hpq hqb
        · exact hpre x hx'
    · rw [if_neg hpq]
      obtain ⟨pre, post, heq, hpre, hpost⟩ := ih p
      cases pre with
      | nil =>
        have hb : p = (rest.foldl (fun best q => if best.2 < q.2 then q else best) p) := by
          have := heq
          simp only [List.nil_append] at this
          exact (List.cons.inj this).1
        have hrest : post = rest := by
          have := heq
          simp only [List.nil_append] at this
          exact ((List.cons.inj this).2).symm
        refine ⟨[], q :: post, ?_, by simp, ?_⟩
        · rw [List.nil_append, ← hb, hrest]
        · intro x hx
          rcases List.mem_cons.mp hx with rfl | hx'
          · rw [← hb]
            exact le_of_not_lt hpq
          · exact hpost x hx'
      | cons a pre' =>
        have ha : a = p := by
          have := heq
          simp only [List.cons_append] at this
          exact ((List.cons.inj this).1).symm
        have htail : rest = pre' ++
            (rest.foldl (fun best q => if best.2 < q.2 then q else best) p) :: post := by
          have := heq
          simp only [List.cons_append] at this
          exact (List.cons.inj this).2
        have hpb : p.2 < (rest.foldl (fun best q => if best.2 < q.2 then q else best) p).2 := by
          apply hpre
          rw [ha]
          exact List.mem_cons_self _ _
        refine ⟨p :: q :: pre', post, ?_, ?_, hpost⟩
        · rw [List.cons_append, List.cons_append, ← htail]
        · intro x hx
          rcases List.mem_cons.mp hx with rfl | hx'
          · exact hpb
          · rcases List.mem_cons.mp hx' with rfl | hx''
            · exact lt_of_le_of_lt (le_of_not_lt hpq) hpb
            · exact hpre x (List.mem_cons_of_mem a hx'')

/-- C5: over any non-empty set of trained classifiers, exactly one best model
is selected — the first one, in declaration order, attaining the maximum
validation accuracy — and it is recorded by its name string only. -/
theorem C5_best_model_selection (modelsToTrain : List String) (accOf : String → ℚ)
    (hne : modelPerformances modelsToTrain accOf ≠ []) :
    ∃ b : String × ℚ,
      pickBest (modelPerformances modelsToTrain accOf) = some b ∧
      bestModelName (modelPerformances modelsToTrain accOf) = some b.1 ∧
      ∃ pre post,
        modelPerformances modelsToTrain accOf = pre ++ b :: post ∧
        (∀ q ∈ pre, q.2 < b.2) ∧
        (∀ q ∈ post, q.2 ≤ b.2) := by
  cases hps : modelPerformances modelsToTrain accOf with
  | nil => exact absurd hps hne
  | cons p rest =>
    obtain ⟨pre, post, heq, hpre, hpost⟩ := foldBest_spec rest p
    refine ⟨_, rfl, rfl, pre, post, ?_, hpre, hpost⟩
    rw [← heq]

/-- Witness for C5 at a concrete three-way tie: all three classifiers reach
the same validation accuracy and the first-declared one, random_forest, is
selected. -/
theorem C5_best_model_selection_witness :
    modelPerformances declaredModels (fun _ => 0) ≠ [] ∧
    (∃ b : String × ℚ,
      pickBest (modelPerformances declaredModels (fun _ => 0)) = some b ∧
      bestModelName (modelPerformances declaredModels (fun _ => 0)) = some b.1 ∧
      ∃ pre post,
        modelPerformances declaredModels (fun _ => 0) = pre ++ b :: post ∧
        (∀ q ∈ pre, q.2 < b.2) ∧
        (∀ q ∈ post, q.2 ≤ b.2)) ∧
    bestModelName (modelPerformances declaredModels (fun _ => 0)) =
      some "random_forest" :=
  ⟨by decide, C5_best_model_selection declaredModels (fun _ => 0) (by decide), by decide⟩

/-- Witness for C2 at concrete tables: the sole case's disease id "dX" is
unmapped; training preparation silently drops it, and the evaluator maps it
to the sentinel -1. -/
theorem C2_unmapped_disease_handling_witness :
    (∀ r ∈ ([⟨"c1", "dX", "s1", false, "", ""⟩] : List RelRow),
      idxIn (uniqueFirst
        (([⟨"d1", "", "", "", "", "", "", "", "", "", ""⟩] : List DiseaseRow).map
          (fun x => x.disease_id))) r.disease_id = none) ∧
    prepare_disease_prediction_data [⟨"s1", "", "", "", "", "", "", "", ""⟩]
      [⟨"d1", "", "", "", "", "", "", "", "", "", ""⟩]
      (some [⟨"c1", "dX", "s1", false, "", ""⟩]) = ([], []) ∧
    ([("d1", (0 : ℤ))].lookup "dX" = none) ∧
    evalLabel [("d1", (0 : ℤ))] ⟨["s1"], "dX"⟩ = -1 :=
  ⟨by decide,
    C2_unmapped_disease_handling.2.1 _ _ _ (by decide),
    by decide,
    C2_unmapped_disease_handling.2.2 [("d1", (0 : ℤ))] ⟨["s1"], "dX"⟩ (by decide)⟩

/-! ### data_loader.py : split_data size arithmetic (C3) -/

/-- Size arithmetic of scikit-learn `train_test_split` with a fractional
`test_size`. Modelled from the spec: the splitter itself lives in
scikit-learn, outside this repository; per its documented behaviour the test
partition receives `ceil(n_samples * test_size)` rows and the rest stay. -/
def testSplitCount (n : ℕ) (t : ℚ) : ℕ := (⌈(n : ℚ) * t⌉).toNat

/-- The two sequential splits of `MedicalDataLoader.split_data`: first
isolate the test set at proportion `test_size` of the full set, then isolate
the validation set at `adjusted_val_size = val_size / (1 - test_size)` of the
remainder. Returns (train, validation, test) sizes. -/
def split_data_counts (n : ℕ) (test_size val_size : ℚ) : ℕ × ℕ × ℕ :=
  let nTest := testSplitCount n test_size
  let nRem := n - nTest
  let nVal := testSplitCount nRem (val_size / (1 - test_size))
  (nRem - nVal, nVal, nTest)

/-- C3: for proportions in (0,1) with `test_size + val_size < 1`, the test
set takes `ceil(n * test_size)` rows of the full set, the three partitions
cover the set exactly, and the realized validation share differs from
`n * val_size` by less than one row. -/
theorem C3_sequential_split (n : ℕ) (t v : ℚ) (ht0 : 0 < t) (ht1 : t < 1)
    (hv0 : 0 < v) (htv : t + v < 1) :
    (split_data_counts n t v).2.2 = (⌈(n : ℚ) * t⌉).toNat ∧
    (split_data_counts n t v).1 + (split_data_counts n t v).2.1 +
      (split_data_counts n t v).2.2 = n ∧
    |((split_data_counts n t v).2.1 : ℚ) - n * v| < 1 := by
  have ha : (0 : ℚ) < 1 - t := by linarith
  have hn0 : (0 : ℚ) ≤ (n : ℚ) := Nat.cast_nonneg n
  have hadj0 : 0 < v / (1 - t) := div_pos hv0 ha
  have hadj1 : v / (1 - t) < 1 := (div_lt_one ha).mpr (by linarith)
  have f1 : (n : ℚ) * t ≤ ((⌈(n : ℚ) * t⌉ : ℤ) : ℚ) := Int.le_ceil _
  have f2 : ((⌈(n : ℚ) * t⌉ : ℤ) : ℚ) < (n : ℚ) * t + 1 := Int.ceil_lt_add_one _
  have h0C : (0 : ℤ) ≤ ⌈(n : ℚ) * t⌉ := Int.ceil_nonneg (by positivity)
  have hCn : ⌈(n : ℚ) * t⌉ ≤ (n : ℤ) := by
    rw [Int.ceil_le]
    push_cast
    nlinarith
  have hTestLe : testSplitCount n t ≤ n := by
    rw [testSplitCount]
    omega
  have hTestCast : ((testSplitCount n t : ℕ) : ℚ) = ((⌈(n : ℚ) * t⌉ : ℤ) : ℚ) := by
    rw [testSplitCount]
    exact_mod_cast congrArg (fun z : ℤ => (z : ℚ)) (Int.toNat_of_nonneg h0C)
  have hRemCast : ((n - testSplitCount n t : ℕ) : ℚ) =
      (n : ℚ) - ((⌈(n : ℚ) * t⌉ : ℤ) : ℚ) := by
    rw [Nat.cast_sub hTestLe, hTestCast]
  -- bounds on the remainder
  have hRemUp : ((n - testSplitCount n t : ℕ) : ℚ) ≤ (n : ℚ) * (1 - t) := by
    rw [hRemCast]
    nlinarith
  have hRemLo : (n : ℚ) * (1 - t) - 1 < ((n - testSplitCount n t : ℕ) : ℚ) := by
    rw [hRemCast]
    nlinarith
  have hRem0 : (0 : ℚ) ≤ ((n - testSplitCount n t : ℕ) : ℚ) := Nat.cast_nonneg _
  -- the inner value of the second ceil
  have hxUp : ((n - testSplitCount n t : ℕ) : ℚ) * (v / (1 - t)) ≤ (n : ℚ) * v := by
    have h1 : ((n - testSplitCount n t : ℕ) : ℚ) * (v / (1 - t)) ≤
        ((n : ℚ) * (1 - t)) * (v / (1 - t)) :=
      mul_le_mul_of_nonneg_right hRemUp (le_of_lt hadj0)
    have h2 : ((n : ℚ) * (1 - t)) * (v / (1 - t)) = (n : ℚ) * v := by
      field_simp
      ring
    linarith
  have hxLo : (n : ℚ) * v - v / (1 - t) <
      ((n - testSplitCount n t : ℕ) : ℚ) * (v / (1 - t)) := by
    have h1 : ((n : ℚ) * (1 - t) - 1) * (v / (1 - t)) <
        ((n - testSplitCount n t : ℕ) : ℚ) * (v / (1 - t)) :=
      mul_lt_mul_of_pos_right hRemLo hadj0
    have h2 : ((n : ℚ) * (1 - t) - 1) * (v / (1 - t)) =
        (n : ℚ) * v - v / (1 - t) := by
      field_simp
      ring
    linarith
  have hx0 : (0 : ℚ) ≤ ((n - testSplitCount n t : ℕ) : ℚ) * (v / (1 - t)) :=
    mul_nonneg hRem0 (le_of_lt hadj0)
  have h0D : (0 : ℤ) ≤ ⌈((n - testSplitCount n t : ℕ) : ℚ) * (v / (1 - t))⌉ :=
    Int.ceil_nonneg hx0
  have g1 : ((n - testSplitCount n t : ℕ) : ℚ) * (v / (1 - t)) ≤
      ((⌈((n - testSplitCount n t : ℕ) : ℚ) * (v / (1 - t))⌉ : ℤ) : ℚ) := Int.le_ceil _
  have g2 : ((⌈((n - testSplitCount n t : ℕ) : ℚ) * (v / (1 - t))⌉ : ℤ) : ℚ) <
      ((n - testSplitCount n t : ℕ) : ℚ) * (v / (1 - t)) + 1 := Int.ceil_lt_add_one _
  have hValLe : testSplitCount (n - testSplitCount n t) (v / (1 - t)) ≤
      n - testSplitCount n t := by
    rw [testSplitCount]
    have : ⌈((n - testSplitCount n t : ℕ) : ℚ) * (v / (1 - t))⌉ ≤
        ((n - testSplitCount n t : ℕ) : ℤ) := by
      rw [Int.ceil_le]
      push_cast
      nlinarith
    omega
  have hValCast : ((testSplitCount (n - testSplitCount n t) (v / (1 - t)) : ℕ) : ℚ) =
      ((⌈((n - testSplitCount n t : ℕ) : ℚ) * (v / (1 - t))⌉ : ℤ) : ℚ) := by
    rw [testSplitCount]
    exact_mod_cast congrArg (fun z : ℤ => (z : ℚ)) (Int.toNat_of_nonneg h0D)
  refine ⟨rfl, ?_, ?_⟩
  · show n - testSplitCount n t - testSplitCount (n - testSplitCount n t) (v / (1 - t)) +
      testSplitCount (n - testSplitCount n t) (v / (1 - t)) + testSplitCount n t = n
    omega
  · show |((testSplitCount (n - testSplitCount n t) (v / (1 - t)) : ℕ) : ℚ) - n * v| < 1
    rw [hValCast, abs_lt]
    constructor
    · linarith
    · linarith

/-- Witness for C3 at the spec's own example: 1000 rows, test_size = 1/5,
val_size = 1/10, giving exactly 700 train, 100 validation, 200 test rows. -/
theorem C3_sequential_split_witness :
    (0 < (1 / 5 : ℚ)) ∧ ((1 / 5 : ℚ) < 1) ∧ (0 < (1 / 10 : ℚ)) ∧
    ((1 / 5 : ℚ) + 1 / 10 < 1) ∧
    ((split_data_counts 1000 (1 / 5) (1 / 10)).2.2 = (⌈(1000 : ℚ) * (1 / 5)⌉).toNat ∧
      (split_data_counts 1000 (1 / 5) (1 / 10)).1 +
        (split_data_counts 1000 (1 / 5) (1 / 10)).2.1 +
        (split_data_counts 1000 (1 / 5) (1 / 10)).2.2 = 1000 ∧
      |((split_data_counts 1000 (1 / 5) (1 / 10)).2.1 : ℚ) - 1000 * (1 / 10)| < 1) ∧
    split_data_counts 1000 (1 / 5) (1 / 10) = (700, 100, 200) :=
  ⟨by norm_num, by norm_num, by norm_num, by norm_num,
    C3_sequential_split 1000 (1 / 5) (1 / 10) (by norm_num) (by norm_num)
      (by norm_num) (by norm_num),
    by
      have h0 : (Int.toNat (200 : ℤ)) = 200 := rfl
      have h1 : (⌈((1000 : ℕ) : ℚ) * (1 / 5)⌉ : ℤ) = 200 := by norm_num
      simp only [split_data_counts, testSplitCount]
      rw [h1]
      simp only [h0]
      have h2 : (⌈((1000 - 200 : ℕ) : ℚ) * (1 / 10 / (1 - 1 / 5))⌉ : ℤ) = 100 := by
        norm_num
      rw [h2]
      rfl⟩

/-! ### model_evaluator.py : confusion matrix (C6) -/

/-- The label axis scikit-learn `confusion_matrix` uses when no `labels`
argument is passed (as in `_evaluate_disease_prediction_model`): the sorted
distinct values appearing in `y_true` or `y_pred`. -/
def cmLabels (yTrue yPred : List ℤ) : List ℤ :=
  sortList (uniqueFirst (yTrue ++ yPred))

/-- `confusion_matrix(y_test, y_pred)` of scikit-learn with default labels:
entry (i, j) counts the samples with true label `labels[i]` and predicted
label `labels[j]`. -/
def confusion_matrix (yTrue yPred : List ℤ) : List (List ℕ) :=
  (cmLabels yTrue yPred).map (fun t =>
    (cmLabels yTrue yPred).map (fun p =>
      (yTrue.zip yPred).countP (fun q => decide (q.1 = t) && decide (q.2 = p))))

theorem sum_map_add {β : Type} (l : List β) (f g : β → ℕ) :
    (l.map (fun k => f k + g k)).sum = (l.map f).sum + (l.map g).sum := by
  induction l with
  | nil => rfl
  | cons a t ih =>
    simp only [List.map_cons, List.sum_cons, ih]
    omega

theorem sum_map_ite_of_not_mem {β : Type} [DecidableEq β] (ks : List β) (b : β)
    (hb : b ∉ ks) : (ks.map (fun k => if b = k then 1 else 0)).sum = 0 := by
  induction ks with
  | nil => rfl
  | cons a t ih =>
    simp only [List.map_cons, List.sum_cons]
    rw [if_neg (fun h => hb (by rw [h]; exact List.mem_cons_self a t)),
      ih (fun h => hb (List.mem_cons_of_mem a h))]

theorem sum_map_ite_of_mem {β : Type} [DecidableEq β] (ks : List β) (b : β)
    (hnd : ks.Nodup) (hb : b ∈ ks) :
    (ks.map (fun k => if b = k then 1 else 0)).sum = 1 := by
  induction ks with
  | nil => simp at hb
  | cons a t ih =>
    simp only [List.map_cons, List.sum_cons]
    rw [List.nodup_cons] at hnd
    rcases List.mem_cons.mp hb with rfl | hbt
    · rw [if_pos rfl, sum_map_ite_of_not_mem t b hnd.1]
    · rw [if_neg, ih hnd.2 hbt]
      intro h
      exact hnd.1 (h ▸ hbt)

theorem countP_partition {α β : Type} [DecidableEq β] (l : List α) (P : α → Bool)
    (f : α → β) (ks : List β) (hnd : ks.Nodup)
    (hcov : ∀ x ∈ l, P x = true → f x ∈ ks) :
    (ks.map (fun k => l.countP (fun x => P x && decide (f x = k)))).sum =
      l.countP P := by
  induction l with
  | nil => simp
  | cons x xs ih =>
    have hcov' : ∀ y ∈ xs, P y = true → f y ∈ ks :=
      fun y hy => hcov y (List.mem_cons_of_mem x hy)
    rw [List.countP_cons]
    have hmap : ks.map (fun k => (x :: xs).countP (fun y => P y && decide (f y = k))) =
        ks.map (fun k => xs.countP (fun y => P y && decide (f y = k)) +
          if (P x && decide (f x = k)) = true then 1 else 0) := by
      apply List.map_congr_left
      intro k _
      rw [List.countP_cons]
    rw [hmap, sum_map_add, ih hcov']
    congr 1
    by_cases hP : P x = true
    · have hpt : ∀ k ∈ ks, (if (P x && decide (f x = k)) = true then 1 else 0) =
          (fun k => if f x = k then 1 else 0) k := by
        intro k _
        rw [hP]
        simp
      rw [List.map_congr_left hpt,
        sum_map_ite_of_mem ks (f x) hnd (hcov x (List.mem_cons_self x xs) hP), if_pos hP]
    · have hpf : ∀ k ∈ ks, (if (P x && decide (f x = k)) = true then 1 else 0) =
          (fun _ => (0 : ℕ)) k := by
        intro k _
        simp [hP]
      rw [List.map_congr_left hpf, if_neg hP]
      simp

theorem countP_zip_fst (yT yP : List ℤ) (t : ℤ) (h : yT.length = yP.length) :
    (yT.zip yP).countP (fun q => decide (q.1 = t)) = yT.count t := by
  induction yT generalizing yP with
  | nil => simp
  | cons a as ih =>
    cases yP with
    | nil => simp at h
    | cons b bs =>
      rw [List.zip_cons_cons, List.countP_cons, List.count_cons]
      have h' : as.length = bs.length := by
        simpa using h
      rw [ih bs h']
      simp

theorem getD_map_lt {α β : Type} (l : List α) (f : α → β) (i : ℕ)
    (hi : i < l.length) (d : α) (d' : β) :
    (l.map f).getD i d' = f (l.getD i d) := by
  rw [List.getD_eq_getElem?_getD, List.getD_eq_getElem?_getD, List.getElem?_map,
    List.getElem?_eq_getElem hi]
  rfl

theorem nodup_cmLabels (yTrue yPred : List ℤ) : (cmLabels yTrue yPred).Nodup :=
  nodup_sortList _ (nodup_uniqueFirst _)

theorem mem_cmLabels_of_pred (yTrue yPred : List ℤ) (v : ℤ) (hv : v ∈ yPred) :
    v ∈ cmLabels yTrue yPred := by
  rw [cmLabels, mem_sortList, mem_uniqueFirst]
  exact List.mem_append_right yTrue hv

/-- C6 counterexample: with a three-disease universe but only two labels
observed in the test set, the confusion matrix is 2 x 2, not 3 x 3 — its
size is NOT the size of the disease-label universe. -/
theorem C6_counterexample :
    (confusion_matrix [0, 1] [1, 0]).length ≠
      ([("d1", (0 : ℤ)), ("d2", 1), ("d3", 2)] : List (String × ℤ)).length := by
  decide

/-- C6 (amended): the confusion matrix is square with side the number of
distinct labels observed in `y_test` or `y_pred` (not the whole universe),
entry (i, j) counts the samples with true label i and predicted label j,
and each row's sum equals the number of test samples whose true label is
that row's label. -/
theorem C6_confusion_matrix (yTrue yPred : List ℤ)
    (hlen : yTrue.length = yPred.length) :
    (confusion_matrix yTrue yPred).length = (cmLabels yTrue yPred).length ∧
    (∀ i j, i < (cmLabels yTrue yPred).length → j < (cmLabels yTrue yPred).length →
      ((confusion_matrix yTrue yPred).getD i []).getD j 0 =
        (yTrue.zip yPred).countP
          (fun q => decide (q.1 = (cmLabels yTrue yPred).getD i 0) &&
            decide (q.2 = (cmLabels yTrue yPred).getD j 0))) ∧
    (∀ i, i < (cmLabels yTrue yPred).length →
      ((confusion_matrix yTrue yPred).getD i []).sum =
        yTrue.count ((cmLabels yTrue yPred).getD i 0)) := by
  refine ⟨by rw [confusion_matrix, List.length_map], ?_, ?_⟩
  · intro i j hi hj
    rw [confusion_matrix, getD_map_lt _ _ i hi 0 [], getD_map_lt _ _ j hj 0 0]
  · intro i hi
    rw [confusion_matrix, getD_map_lt _ _ i hi 0 []]
    rw [countP_partition (yTrue.zip yPred)
      (fun q => decide (q.1 = (cmLabels yTrue yPred).getD i 0)) (fun q => q.2)
      (cmLabels yTrue yPred) (nodup_cmLabels yTrue yPred) ?_]
    · exact countP_zip_fst yTrue yPred _ hlen
    · intro q hq _
      exact mem_cmLabels_of_pred yTrue yPred q.2 (List.of_mem_zip hq).2

/-- Witness for C6 at a concrete equal-length test set. -/
theorem C6_confusion_matrix_witness :
    (([(0 : ℤ), 1, 0] : List ℤ).length = ([(1 : ℤ), 1, 0] : List ℤ).length) ∧
    ((confusion_matrix [0, 1, 0] [1, 1, 0]).length =
        (cmLabels [0, 1, 0] [1, 1, 0]).length ∧
      (∀ i j, i < (cmLabels [0, 1, 0] [1, 1, 0]).length →
        j < (cmLabels [0, 1, 0] [1, 1, 0]).length →
        ((confusion_matrix [0, 1, 0] [1, 1, 0]).getD i []).getD j 0 =
          (([(0 : ℤ), 1, 0]).zip [(1 : ℤ), 1, 0]).countP
            (fun q => decide (q.1 = (cmLabels [0, 1, 0] [1, 1, 0]).getD i 0) &&
              decide (q.2 = (cmLabels [0, 1, 0] [1, 1, 0]).getD j 0))) ∧
      (∀ i, i < (cmLabels [0, 1, 0] [1, 1, 0]).length →
        ((confusion_matrix [0, 1, 0] [1, 1, 0]).getD i []).sum =
          ([(0 : ℤ), 1, 0]).count ((cmLabels [0, 1, 0] [1, 1, 0]).getD i 0))) :=
  ⟨rfl, C6_confusion_matrix [0, 1, 0] [1, 1, 0] rfl⟩

/-! ### model_evaluator.py : per-class ROC-AUC guard (C7) -/

/-- `y_test == disease_idx` of numpy: the one-vs-rest binarization. -/
def binarize (yTest : List ℤ) (i : ℤ) : List Bool :=
  yTest.map (fun y => decide (y = i))

/-- The guard `len(np.unique(y_test == disease_idx)) > 1` of the per-class
ROC-AUC loop (only the count of distinct values matters, so first-seen
uniqueness stands in for `np.unique`). -/
def bothClassesPresent (yTest : List ℤ) (i : ℤ) : Bool :=
  decide (1 < (uniqueFirst (binarize yTest i)).length)

/-- The disease ids receiving a per-class ROC-AUC entry in
`_evaluate_disease_prediction_model`. -/
def roc_auc_keys (dm : List (String × ℤ)) (yTest : List ℤ) : List String :=
  (dm.filter (fun p => bothClassesPresent yTest p.2)).map Prod.fst

theorem one_lt_uniqueFirst_bool (bs : List Bool) :
    1 < (uniqueFirst bs).length ↔ (true ∈ bs ∧ false ∈ bs) := by
  constructor
  · intro h
    cases hu : uniqueFirst bs with
    | nil =>
      rw [hu] at h
      simp at h
    | cons a t =>
      cases t with
      | nil =>
        rw [hu] at h
        simp at h
      | cons b t2 =>
        have hnd := nodup_uniqueFirst bs
        rw [hu, List.nodup_cons] at hnd
        have hab : a ≠ b := fun he => hnd.1 (he ▸ List.mem_cons_self b t2)
        have ha : a ∈ bs := (mem_uniqueFirst bs a).mp
          (by rw [hu]; exact List.mem_cons_self a _)
        have hb : b ∈ bs := (mem_uniqueFirst bs b).mp
          (by rw [hu]; exact List.mem_cons_of_mem a (List.mem_cons_self b t2))
        cases a
        · cases b
          · exact absurd rfl hab
          · exact ⟨hb, ha⟩
        · cases b
          · exact ⟨ha, hb⟩
          · exact absurd rfl hab
  · rintro ⟨ht, hf⟩
    have ht' : true ∈ uniqueFirst bs := (mem_uniqueFirst bs true).mpr ht
    have hf' : false ∈ uniqueFirst bs := (mem_uniqueFirst bs false).mpr hf
    cases hu : uniqueFirst bs with
    | nil =>
      rw [hu] at ht'
      simp at ht'
    | cons a t =>
      cases t with
      | nil =>
        rw [hu] at ht' hf'
        rw [List.mem_singleton] at ht' hf'
        exact absurd (ht'.trans hf'.symm) (by decide)
      | cons b t2 =>
        simp [List.length_cons]

theorem true_mem_binarize (yTest : List ℤ) (i : ℤ) :
    true ∈ binarize yTest i ↔ ∃ y ∈ yTest, y = i := by
  rw [binarize]
  simp

theorem false_mem_binarize (yTest : List ℤ) (i : ℤ) :
    false ∈ binarize yTest i ↔ ∃ y ∈ yTest, y ≠ i := by
  rw [binarize]
  simp

theorem assoc_key_unique {γ : Type} (l : List (String × γ))
    (hnd : (l.map Prod.fst).Nodup) (p q : String × γ) (hp : p ∈ l) (hq : q ∈ l)
    (hpq : p.1 = q.1) : p = q := by
  induction l with
  | nil => simp at hp
  | cons a t ih =>
    rw [List.map_cons, List.nodup_cons] at hnd
    rcases List.mem_cons.mp hp with rfl | hp'
    · rcases List.mem_cons.mp hq with rfl | hq'
      · rfl
      · exact absurd (by rw [hpq]; exact List.mem_map_of_mem Prod.fst hq') hnd.1
    · rcases List.mem_cons.mp hq with rfl | hq'
      · exact absurd (by rw [← hpq]; exact List.mem_map_of_mem Prod.fst hp') hnd.1
      · exact ih hnd.2 hp' hq'

/-- C7: a disease class of the persisted disease mapping receives a per-class
ROC-AUC entry exactly when its one-vs-rest binarization of `y_test` contains
both a positive and a negative example; single-outcome classes are omitted
rather than raising. -/
theorem C7_roc_auc_guard (dm : List (String × ℤ)) (yTest : List ℤ) (d : String)
    (i : ℤ) (hmem : (d, i) ∈ dm) (hnd : (dm.map Prod.fst).Nodup) :
    d ∈ roc_auc_keys dm yTest ↔
      ((∃ y ∈ yTest, y = i) ∧ (∃ y ∈ yTest, y ≠ i)) := by
  rw [roc_auc_keys]
  constructor
  · intro hd
    rw [List.mem_map] at hd
    obtain ⟨p, hpfil, hpd⟩ := hd
    rw [List.mem_filter] at hpfil
    have hpe : p = (d, i) :=
      assoc_key_unique dm hnd p (d, i) hpfil.1 hmem (by rw [hpd])
    have hcond := hpfil.2
    rw [hpe] at hcond
    rw [bothClassesPresent, decide_eq_true_eq, one_lt_uniqueFirst_bool] at hcond
    exact ⟨(true_mem_binarize yTest i).mp hcond.1,
      (false_mem_binarize yTest i).mp hcond.2⟩
  · rintro ⟨h1, h2⟩
    rw [List.mem_map]
    refine ⟨(d, i), ?_, rfl⟩
    rw [List.mem_filter]
    refine ⟨hmem, ?_⟩
    rw [bothClassesPresent, decide_eq_true_eq, one_lt_uniqueFirst_bool]
    exact ⟨(true_mem_binarize yTest i).mpr h1, (false_mem_binarize yTest i).mpr h2⟩

/-- Witness for C7: with classes 0 and 1 both observed, class "d1" (index 0)
has positive and negative examples and so receives a ROC-AUC entry. -/
theorem C7_roc_auc_guard_witness :
    ((("d1", (0 : ℤ)) ∈ ([("d1", (0 : ℤ)), ("d2", 1)] : List (String × ℤ))) ∧
      (([("d1", (0 : ℤ)), ("d2", 1)] : List (String × ℤ)).map Prod.fst).Nodup) ∧
    ("d1" ∈ roc_auc_keys [("d1", (0 : ℤ)), ("d2", 1)] [0, 1, 0] ↔
      ((∃ y ∈ ([(0 : ℤ), 1, 0] : List ℤ), y = 0) ∧
        (∃ y ∈ ([(0 : ℤ), 1, 0] : List ℤ), y ≠ 0))) :=
  ⟨⟨by decide, by decide⟩,
    C7_roc_auc_guard [("d1", (0 : ℤ)), ("d2", 1)] [0, 1, 0] "d1" 0
      (by decide) (by decide)⟩

/-! ### model_evaluator.py : end-to-end accuracy (C8) -/

/-- One per-model record stored in `predictions[model_type]` by
`evaluate_end_to_end`: the predicted disease id and the correctness flag
computed at prediction time. -/
structure Prediction where
  model_type : String
  predicted_disease_id : String
  correct : Bool
deriving DecidableEq

/-- `disease_idx_to_id = \x7bidx: disease_id for disease_id, idx in
disease_mapping.items()\x7d`: reverse lookup, later entries overwriting
earlier ones on duplicate indices. -/
def disease_idx_to_id (dm : List (String × ℤ)) (i : ℤ) : Option String :=
  (dm.reverse.find? (fun p => p.2 = i)).map Prod.fst

/-- `disease_idx_to_id.get(pred_idx, "unknown")`. -/
def predictedDiseaseId (dm : List (String × ℤ)) (i : ℤ) : String :=
  (disease_idx_to_id dm i).getD "unknown"

/-- One case of the end-to-end test file. -/
structure E2ECase where
  text : String
  disease_id : String

/-- The per-case body of the `evaluate_end_to_end` loop.  Each loaded model
is a pair of its name and the composite text → predicted-index stage
(extraction, matching, scaling and `model.predict` are external model
inference, so that composite is a parameter); its predicted index is mapped
back to a disease id (default "unknown") and compared with ground truth. -/
def e2eCaseEntry (models : List (String × (String → ℤ))) (dm : List (String × ℤ))
    (c : E2ECase) : String × List Prediction :=
  (c.disease_id,
    models.map (fun m =>
      ⟨m.1, predictedDiseaseId dm (m.2 c.text),
        predictedDiseaseId dm (m.2 c.text) = c.disease_id⟩))

/-- The `results` list of `evaluate_end_to_end`. -/
def e2eResults (models : List (String × (String → ℤ))) (dm : List (String × ℤ))
    (cases : List E2ECase) : List (String × List Prediction) :=
  cases.map (e2eCaseEntry models dm)

/-- `accuracy[model_type] = correct / len(results) if results else 0`, with
`correct = sum(1 for r in results if r["predictions"][model_type]["correct"])`. -/
def e2eAccuracy (results : List (String × List Prediction)) (mt : String) : ℚ :=
  if results.length = 0 then 0
  else
    ((results.countP (fun r =>
      ((r.2.find? (fun p => p.model_type = mt)).map Prediction.correct).getD false)) : ℚ) /
      (results.length : ℚ)

theorem find?_e2e (dm : List (String × ℤ)) (c : E2ECase)
    (models : List (String × (String → ℤ))) (mt : String) (f : String → ℤ)
    (hmem : (mt, f) ∈ models) (hnd : (models.map Prod.fst).Nodup) :
    ((models.map (fun m =>
      (⟨m.1, predictedDiseaseId dm (m.2 c.text),
        predictedDiseaseId dm (m.2 c.text) = c.disease_id⟩ : Prediction))).find?
      (fun p => p.model_type = mt)) =
      some ⟨mt, predictedDiseaseId dm (f c.text),
        predictedDiseaseId dm (f c.text) = c.disease_id⟩ := by
  induction models with
  | nil => simp at hmem
  | cons a t ih =>
    rw [List.map_cons, List.nodup_cons] at hnd
    rw [List.map_cons]
    by_cases hcase : a.1 = mt
    · rcases List.mem_cons.mp hmem with he | hmem'
      · rw [← he]
        rw [List.find?_cons_of_pos _ (by simp)]
      · exfalso
        apply hnd.1
        rw [hcase]
        exact List.mem_map_of_mem Prod.fst hmem'
    · rcases List.mem_cons.mp hmem with he | hmem'
      · exact absurd (by rw [← he]) hcase
      · rw [List.find?_cons_of_neg _ (by simp [hcase])]
        exact ih hmem' hnd.2

/-- C8: for every non-empty end-to-end test set and every loaded model, the
reported per-model accuracy equals exactly the number of cases whose
predicted disease id string equals the ground-truth disease id, divided by
the number of cases. -/
theorem C8_end_to_end_accuracy (models : List (String × (String → ℤ)))
    (dm : List (String × ℤ)) (cases : List E2ECase) (mt : String)
    (f : String → ℤ) (hmem : (mt, f) ∈ models)
    (hnd : (models.map Prod.fst).Nodup) (hne : cases ≠ []) :
    e2eAccuracy (e2eResults models dm cases) mt =
      ((cases.countP (fun c =>
        predictedDiseaseId dm (f c.text) = c.disease_id)) : ℚ) /
        (cases.length : ℚ) := by
  rw [e2eAccuracy, e2eResults, List.length_map]
  rw [if_neg (fun h => hne (List.length_eq_zero.mp h))]
  congr 2
  rw [List.countP_map]
  apply List.countP_congr
  intro c _
  show (((e2eCaseEntry models dm c).2.find?
    (fun p => p.model_type = mt)).map Prediction.correct).getD false = true ↔
    decide (predictedDiseaseId dm (f c.text) = c.disease_id) = true
  rw [show (e2eCaseEntry models dm c).2 = models.map (fun m =>
      (⟨m.1, predictedDiseaseId dm (m.2 c.text),
        predictedDiseaseId dm (m.2 c.text) = c.disease_id⟩ : Prediction)) from rfl]
  rw [find?_e2e dm c models mt f hmem hnd]
  exact Iff.rfl

/-- Witness for C8: one model that always predicts index 0 over a two-case
test set where exactly the first case's ground truth is "d1". -/
theorem C8_end_to_end_accuracy_witness :
    ((("random_forest", (fun _ => (0 : ℤ))) ∈
        ([("random_forest", (fun _ => (0 : ℤ)))] : List (String × (String → ℤ)))) ∧
      ((([("random_forest", (fun _ => (0 : ℤ)))] :
        List (String × (String → ℤ))).map Prod.fst).Nodup) ∧
      ([⟨"t1", "d1"⟩, ⟨"t2", "d2"⟩] : List E2ECase) ≠ []) ∧
    e2eAccuracy (e2eResults [("random_forest", (fun _ => (0 : ℤ)))]
        [("d1", (0 : ℤ))] [⟨"t1", "d1"⟩, ⟨"t2", "d2"⟩]) "random_forest" =
      ((([⟨"t1", "d1"⟩, ⟨"t2", "d2"⟩] : List E2ECase).countP (fun c =>
        predictedDiseaseId [("d1", (0 : ℤ))] ((fun _ => (0 : ℤ)) c.text) =
          c.disease_id)) : ℚ) /
        (([⟨"t1", "d1"⟩, ⟨"t2", "d2"⟩] : List E2ECase).length : ℚ) :=
  ⟨⟨List.mem_cons_self _ _, by simp, by simp⟩,
    C8_end_to_end_accuracy [("random_forest", (fun _ => (0 : ℤ)))]
      [("d1", (0 : ℤ))] [⟨"t1", "d1"⟩, ⟨"t2", "d2"⟩] "random_forest"
      (fun _ => (0 : ℤ)) (List.mem_cons_self _ _) (by simp) (by simp)⟩

end MedPipe
